import Mathlib

/-!
Verification of `anti_sandbox_detector/scripts/trace_comparator.py`.

A shallow embedding of the core comparison pipeline of the trace comparator:
event-string trimming (`trace_str_to_class_method`), noise filtering
(`clean_trace`), thread similarity (`trace_similarity`), the similarity
matrix over raw thread traces, the lockstep divergence scan inside
`compare_trace`, and the per-pair `ComparisonRecord` construction.

Python strings are modelled as `List Char`; Python float arithmetic on the
small ratios involved is modelled exactly as `ℚ`; Python exceptions
(`IndexError` from `trace_str[trace_idx]`, `ZeroDivisionError` from the two
similarity divisions) are modelled by `Option`, with `none` meaning that the
Python code raises.
-/

namespace TraceComparator

/-- An event string, e.g. `"ent! Foo.bar data loc"`.  Python strings are
modelled as lists of characters. -/
abbrev Ev := List Char

/-- Source: `trace_str_to_class_method` (trace_comparator.py lines 17-21).
Starts at index `len("ent ") = 4` and advances while the current character is
not alphabetic, then returns the suffix from there.  In Python an index past
the end raises `IndexError`; here that is `none`.  The scan over indices
`≥ 4` is realised by dropping the first 4 characters and then skipping
non-alphabetic characters. -/
def skipNonAlpha : List Char → Option (List Char)
  | [] => none
  | c :: rest => if c.isAlpha then some (c :: rest) else skipNonAlpha rest

/-- The embedding of `trace_str_to_class_method`: the suffix of the event
string starting at the first alphabetic character at index ≥ 4. -/
def trace_str_to_class_method (s : Ev) : Option Ev :=
  skipNonAlpha (s.drop 4)

/-- Source: `ex_class_list` inside `clean_trace` (lines 25-33). -/
def ex_class_list : List (List Char) :=
  ["android.".toList,
   "com.android".toList,
   "com.google.android.collect".toList,
   "dalvik.system".toList,
   "java.".toList,
   "libcore.".toList,
   "sun.".toList]

/-- Source: `clean_trace` (lines 23-46).  Keeps, in order, the events whose
trimmed form does not start with an excluded namespace; `none` when
`trace_str_to_class_method` raises on some event. -/
def clean_trace : List Ev → Option (List Ev)
  | [] => some []
  | t :: rest =>
    match trace_str_to_class_method t with
    | none => none
    | some trimmed =>
      match clean_trace rest with
      | none => none
      | some rest2 =>
        if ex_class_list.any (fun ex => ex.isPrefixOf trimmed) then some rest2
        else some (t :: rest2)

/-- Length of the longest common prefix of two character lists; the embedding
of `len(os.path.commonprefix([name_a, name_b]))` (line 91). -/
def commonPrefixLen : List Char → List Char → Nat
  | a :: as, b :: bs => if a = b then commonPrefixLen as bs + 1 else 0
  | _, _ => 0

/-- The set of trimmed events of a trace, the embedding of the
`class_methods_a` / `class_methods_b` set construction (lines 84-89);
`none` when trimming raises on some event. -/
def class_method_set : List Ev → Option (Finset Ev)
  | [] => some ∅
  | t :: rest =>
    match trace_str_to_class_method t, class_method_set rest with
    | some cm, some s => some (insert cm s)
    | _, _ => none

/-- Source: `trace_similarity` (lines 81-93).  `name_sim` is the common-prefix
length over the max name length; `cov_sim` is the Jaccard ratio of the two
trimmed-event sets.  Python raises `ZeroDivisionError` when both names are
empty (line 91) or when the union is empty (line 92); both are `none` here,
in the evaluation order of the source. -/
def trace_similarity (name_a : List Char) (trace_a : List Ev)
    (name_b : List Char) (trace_b : List Ev) : Option ℚ :=
  match class_method_set trace_a, class_method_set trace_b with
  | some cms_a, some cms_b =>
    if max name_a.length name_b.length = 0 then none
    else
      let name_sim : ℚ :=
        (commonPrefixLen name_a name_b : ℚ) / (max name_a.length name_b.length : ℚ)
      if (cms_a ∪ cms_b).card = 0 then none
      else some (name_sim *
        (((cms_a ∩ cms_b).card : ℚ) / ((cms_a ∪ cms_b).card : ℚ)))
  | _, _ => none

/-- One parsed thread of a trace document: thread id, thread name, and the
ordered raw event sequence, as produced by `process_trace`. -/
structure ThreadInfo where
  tid : Nat
  name : List Char
  trace : List Ev
  deriving DecidableEq, Repr

/-- Source: `process_trace` lines 73-78 — after parsing, every thread whose
raw event sequence is empty is removed from the document. -/
def dropEmptyTraces (ts : List ThreadInfo) : List ThreadInfo :=
  ts.filter (fun t => ¬ t.trace.isEmpty)

/-- One row of the similarity matrix (lines 126-133): the negated similarity
of a device thread against each emulator thread, computed on the RAW traces
(`["trace"]`, not `clean_trace`d). -/
def sim_row (r : ThreadInfo) : List ThreadInfo → Option (List ℚ)
  | [] => some []
  | e :: es =>
    match trace_similarity r.name r.trace e.name e.trace, sim_row r es with
    | some q, some qs => some (-q :: qs)
    | _, _ => none

/-- The similarity matrix of `compare_trace` (lines 125-133): entry `(i, j)`
is `-trace_similarity` of device thread `i` and emulator thread `j`, both
taken with their raw traces. -/
def sim_matrix : List ThreadInfo → List ThreadInfo → Option (List (List ℚ))
  | [], _ => some []
  | r :: rs, es =>
    match sim_row r es, sim_matrix rs es with
    | some row, some rows => some (row :: rows)
    | _, _ => none

/-- The lockstep scan of `compare_trace` (lines 144-150): the loop increments
`trace_idx` while both sequences agree, stopping at the first mismatch or at
the end of the shorter sequence. -/
def divergeIdx : List Ev → List Ev → Nat
  | a :: as, b :: bs => if a = b then divergeIdx as bs + 1 else 0
  | _, _ => 0

/-- The alignment test of `compare_trace` (lines 140-142): either filtered
sequence empty, or equal first events. -/
def trace_aligned (A B : List Ev) : Bool :=
  A.isEmpty || B.isEmpty || decide (A.head? = B.head?)

/-- Python slice `l[a:b]` for nonnegative bounds. -/
def pySlice (l : List Ev) (a b : Nat) : List Ev := (l.take b).drop a

/-- The JSON object appended per aligned pair (lines 151-162). -/
structure ComparisonRecord where
  real_id : Nat
  real_name : List Char
  real_trace : Option (List Ev)
  emu_id : Nat
  emu_name : List Char
  e_trace : Option (List Ev)
  sim_cov : ℚ
  max_common_len : Nat
  diverge_idx : Nat
  sim_max_common : ℚ
  deriving DecidableEq, Repr

/-- Builds the record of lines 151-162 for one aligned pair with filtered
sequences `A` (device) and `B` (emulator) and similarity `sim`
(`-sim_matrix[x][y]`).  `max(0, trace_idx - 1)` is `trace_idx - 1` in `Nat`;
`if max_common_len` is Python integer truthiness. -/
def mkRecord (rid : Nat) (rname : List Char) (eid : Nat) (ename : List Char)
    (sim : ℚ) (A B : List Ev) : ComparisonRecord :=
  let max_common_len := min A.length B.length
  let trace_idx := divergeIdx A B
  { real_id := rid
    real_name := rname
    real_trace :=
      if trace_idx < max_common_len then
        some (pySlice A (trace_idx - 1) (trace_idx + 1))
      else none
    emu_id := eid
    emu_name := ename
    e_trace :=
      if trace_idx < max_common_len then
        some (pySlice B (trace_idx - 1) (trace_idx + 1))
      else none
    sim_cov := sim
    max_common_len := max_common_len
    diverge_idx := trace_idx
    sim_max_common :=
      if max_common_len ≠ 0 then (trace_idx : ℚ) / (max_common_len : ℚ)
      else 1 }

/-- The body of the per-pair loop (lines 136-162) for one matched pair:
filter both raw traces with `clean_trace`, test alignment, and build the
record only when aligned.  `some none` models "loop iteration ran, appended
nothing"; outer `none` models an exception during filtering. -/
def scanPair (r e : ThreadInfo) (sim : ℚ) : Option (Option ComparisonRecord) :=
  match clean_trace r.trace, clean_trace e.trace with
  | some A, some B =>
    if trace_aligned A B then
      some (some (mkRecord r.tid r.name e.tid e.name sim A B))
    else some none
  | _, _ => none

/-- Entry `M[x][y]` of a matrix given as nested lists. -/
def matrixEntry (M : List (List ℚ)) (x y : Nat) : Option ℚ :=
  match M.get? x with
  | some row => row.get? y
  | none => none

/-- The per-pair loop of `compare_trace` (lines 136-162) over the assignment
`pairing` returned by the solver: each pair `(x, y)` of row/column indices is
scanned and its record, when the pair is aligned, appended in order. -/
def scanMatched (rs es : List ThreadInfo) (M : List (List ℚ)) :
    List (Nat × Nat) → Option (List ComparisonRecord)
  | [] => some []
  | (x, y) :: ps =>
    match rs.get? x, es.get? y, matrixEntry M x y with
    | some r, some e, some v =>
      match scanPair r e (-v), scanMatched rs es M ps with
      | some orec, some rest => some (orec.elim rest (fun rc => rc :: rest))
      | _, _ => none
    | _, _, _ => none

/-- The core of `compare_trace` (lines 119-162) downstream of parsing: drop
raw-empty threads (end of `process_trace`), build the similarity matrix over
the remaining threads' raw traces, then scan the pairs chosen by the
assignment solver.  The solver's output is the `pairing` argument. -/
def compare_core (rs0 es0 : List ThreadInfo) (pairing : List (Nat × Nat)) :
    Option (List ComparisonRecord) :=
  let rs := dropEmptyTraces rs0
  let es := dropEmptyTraces es0
  match sim_matrix rs es with
  | some M => scanMatched rs es M pairing
  | none => none

/-! Well-formed event strings, as produced by the `"%s%s %s %s %s"`
formatting of `process_trace` (line 70): an event kind, a run of `'!'`
exclusive markers, a space, and then the class-and-method name followed by
the two trailing fields, the whole body starting with a letter. -/

/-- The three event kinds matched by `TRACE_ITEM_RE`: `ent`, `xit`, `unr`. -/
def trace_kinds : List Ev := ["ent".toList, "xit".toList, "unr".toList]

/-- The event string assembled by `process_trace` line 70: kind, `n`
exclusive markers, a space, then the body `class.method data location`. -/
def mkEv (kind : Ev) (n : Nat) (body : Ev) : Ev :=
  kind ++ List.replicate n '!' ++ (' ' :: body)

/-- The body of a well-formed event starts with a letter (class names are
alphabetic at their first character). -/
def headAlpha (b : Ev) : Bool :=
  match b with
  | c :: _ => c.isAlpha
  | [] => false

/-- The identifier the spec's words prescribe for coverage similarity: the
fully-qualified class-and-method name ONLY, i.e. the first
whitespace-delimited token of the trimmed event, with the two trailing
data/location fields dropped.  This follows the spec's words, for comparison
against the source's `trace_str_to_class_method`. -/
def spec_class_method (s : Ev) : Option Ev :=
  (trace_str_to_class_method s).map (fun t => t.takeWhile (fun c => c ≠ ' '))

/-- The spec's context window around a divergence index `i`: the immediately
preceding event, when it exists, plus the diverging event itself.  This
follows the spec's words, for comparison against the slice taken by
`compare_trace`. -/
def specContext (l : List Ev) (i : Nat) : List Ev :=
  (if 1 ≤ i then (l.get? (i - 1)).toList else []) ++ (l.get? i).toList

/-! The assignment solver.  `scipy.optimize.linear_sum_assignment` is
external library code; it is modelled by its documented contract: on an
`m × n` cost matrix it returns a one-to-one assignment of `min m n` pairs
minimizing the total cost.  A partial assignment is a function from device
rows to an optional emulator column. -/

/-- Number of rows assigned by a partial assignment. -/
def matchSize {m n : Nat} (f : Fin m → Option (Fin n)) : Nat :=
  (Finset.univ.filter (fun i => (f i).isSome)).card

/-- Modelled from the spec: the shape of the pairing returned by the
assignment solver (`linear_sum_assignment`, called at line 134) — a
one-to-one assignment covering exactly `min m n` rows. -/
def isMatching {m n : Nat} (f : Fin m → Option (Fin n)) : Prop :=
  (∀ i j, (f i).isSome → f i = f j → i = j) ∧ matchSize f = min m n

/-- Total similarity collected by a partial assignment over a similarity
matrix `sim`; unassigned rows contribute nothing. -/
def simSum {m n : Nat} (sim : Fin m → Fin n → ℚ) (f : Fin m → Option (Fin n)) : ℚ :=
  ∑ i, (f i).elim 0 (fun j => sim i j)

/-- Total cost of a partial assignment over a cost matrix. -/
def costSum {m n : Nat} (cost : Fin m → Fin n → ℚ) (f : Fin m → Option (Fin n)) : ℚ :=
  ∑ i, (f i).elim 0 (fun j => cost i j)

/-- The cost matrix built at line 128: `sim_matrix[i][j] = -trace_similarity(...)`,
i.e. the negated similarity. -/
def negCostMatrix {m n : Nat} (sim : Fin m → Fin n → ℚ) : Fin m → Fin n → ℚ :=
  fun i j => -(sim i j)

/-- Modelled from the spec: the documented contract of
`scipy.optimize.linear_sum_assignment` — the returned assignment is a
matching of `min m n` pairs whose total cost is least among all such
matchings. -/
def IsOptimalAssignment {m n : Nat} (cost : Fin m → Fin n → ℚ)
    (f : Fin m → Option (Fin n)) : Prop :=
  isMatching f ∧ ∀ g, isMatching g → costSum cost f ≤ costSum cost g

/-! Helper lemmas about the lockstep scan and the context slices. -/

theorem divergeIdx_le_min (A B : List Ev) :
    divergeIdx A B ≤ min A.length B.length := by
  induction A generalizing B with
  | nil => simp [divergeIdx]
  | cons a as ih =>
    cases B with
    | nil => simp [divergeIdx]
    | cons b bs =>
      by_cases h : a = b
      · simpa [divergeIdx, h, Nat.succ_min_succ, Nat.succ_le_succ_iff] using ih bs
      · simp [divergeIdx, h]

theorem divergeIdx_agree (A B : List Ev) :
    ∀ j, j < divergeIdx A B → A.get? j = B.get? j := by
  induction A generalizing B with
  | nil => intro j hj; simp [divergeIdx] at hj
  | cons a as ih =>
    cases B with
    | nil => intro j hj; simp [divergeIdx] at hj
    | cons b bs =>
      intro j hj
      by_cases h : a = b
      · cases j with
        | zero => simp [h]
        | succ j' =>
          simp only [divergeIdx, if_pos h] at hj
          simpa using ih bs j' (by omega)
      · simp [divergeIdx, h] at hj

theorem divergeIdx_mismatch (A B : List Ev) :
    divergeIdx A B < min A.length B.length →
    A.get? (divergeIdx A B) ≠ B.get? (divergeIdx A B) := by
  induction A generalizing B with
  | nil => simp [divergeIdx]
  | cons a as ih =>
    cases B with
    | nil => simp [divergeIdx]
    | cons b bs =>
      by_cases h : a = b
      · intro hlt
        simp only [divergeIdx, if_pos h] at hlt ⊢
        have hlt' : divergeIdx as bs < min as.length bs.length := by
          simp [Nat.succ_min_succ] at hlt; omega
        simpa using ih bs hlt'
      · intro _
        simp only [divergeIdx, if_neg h]
        simpa using h

theorem divergeIdx_self (A : List Ev) : divergeIdx A A = A.length := by
  induction A with
  | nil => simp [divergeIdx]
  | cons a as ih => simp [divergeIdx, ih]

theorem divergeIdx_eq_min_of_agree (A B : List Ev)
    (h : ∀ i, i < min A.length B.length → A.get? i = B.get? i) :
    divergeIdx A B = min A.length B.length := by
  rcases Nat.lt_or_ge (divergeIdx A B) (min A.length B.length) with hlt | hge
  · exact absurd (h _ hlt) (divergeIdx_mismatch A B hlt)
  · exact Nat.le_antisymm (divergeIdx_le_min A B) hge

theorem pySlice_eq_specContext (l : List Ev) (i : Nat) (h : i < l.length) :
    pySlice l (i - 1) (i + 1) = specContext l i := by
  cases i with
  | zero =>
    cases l with
    | nil => simp at h
    | cons x xs => simp [pySlice, specContext]
  | succ j =>
    induction j generalizing l with
    | zero =>
      match l, h with
      | x :: y :: rest, _ => simp [pySlice, specContext]
    | succ k ih =>
      match l, h with
      | x :: rest, h =>
        have hr : k + 1 < rest.length := by simpa using h
        have := ih rest hr
        simpa [pySlice, specContext, List.take_succ_cons, List.drop_succ_cons]
          using this

theorem specContext_length (l : List Ev) (i : Nat) (h : i < l.length) :
    (specContext l i).length = if i = 0 then 1 else 2 := by
  cases i with
  | zero =>
    have e0 : l[0]? = some l[0] := List.getElem?_eq_getElem h
    simp [specContext, e0]
  | succ j =>
    have h1 : j < l.length := by omega
    have e1 : l[j]? = some l[j] := List.getElem?_eq_getElem h1
    have e2 : l[j + 1]? = some l[j + 1] := List.getElem?_eq_getElem h
    simp [specContext, e1, e2]

theorem mkRecord_diverge_idx (rid eid : Nat) (rname ename : List Char) (s : ℚ)
    (A B : List Ev) :
    (mkRecord rid rname eid ename s A B).diverge_idx = divergeIdx A B := by
  simp [mkRecord]

theorem mkRecord_max_common_len (rid eid : Nat) (rname ename : List Char) (s : ℚ)
    (A B : List Ev) :
    (mkRecord rid rname eid ename s A B).max_common_len = min A.length B.length := by
  simp [mkRecord]

theorem mkRecord_real_trace (rid eid : Nat) (rname ename : List Char) (s : ℚ)
    (A B : List Ev) :
    (mkRecord rid rname eid ename s A B).real_trace =
      if divergeIdx A B < min A.length B.length then
        some (pySlice A (divergeIdx A B - 1) (divergeIdx A B + 1))
      else none := by
  simp [mkRecord]

theorem mkRecord_e_trace (rid eid : Nat) (rname ename : List Char) (s : ℚ)
    (A B : List Ev) :
    (mkRecord rid rname eid ename s A B).e_trace =
      if divergeIdx A B < min A.length B.length then
        some (pySlice B (divergeIdx A B - 1) (divergeIdx A B + 1))
      else none := by
  simp [mkRecord]

theorem mkRecord_sim_max_common (rid eid : Nat) (rname ename : List Char) (s : ℚ)
    (A B : List Ev) :
    (mkRecord rid rname eid ename s A B).sim_max_common =
      if min A.length B.length ≠ 0 then
        (divergeIdx A B : ℚ) / ((min A.length B.length : ℕ) : ℚ)
      else 1 := by
  simp [mkRecord]

/-- C3: for every scanned pair of filtered sequences `A` (device) and `B`
(emulator), the reported divergence index is the least index `i` below
`min |A| |B|` with `A[i] ≠ B[i]`: every earlier index agrees, and if the
index is below the common length the events there differ; when the whole
common prefix agrees the index equals the common length (no divergence
reported within the common prefix).  On the spec's example sequences the
reported divergence index is `1`. -/
theorem claim_C3_diverge_idx_least (rid eid : Nat) (rname ename : List Char)
    (s : ℚ) (A B : List Ev) :
    (mkRecord rid rname eid ename s A B).diverge_idx ≤ min A.length B.length ∧
    (∀ j, j < (mkRecord rid rname eid ename s A B).diverge_idx →
      A.get? j = B.get? j) ∧
    ((mkRecord rid rname eid ename s A B).diverge_idx < min A.length B.length →
      A.get? (mkRecord rid rname eid ename s A B).diverge_idx ≠
        B.get? (mkRecord rid rname eid ename s A B).diverge_idx) ∧
    ((∀ i, i < min A.length B.length → A.get? i = B.get? i) →
      (mkRecord rid rname eid ename s A B).diverge_idx = min A.length B.length) ∧
    (mkRecord rid rname eid ename s
      ["ent Foo.bar".toList, "ent Foo.baz".toList, "xit Foo.baz".toList]
      ["ent Foo.bar".toList, "ent Foo.qux".toList, "xit Foo.qux".toList]).diverge_idx
      = 1 := by
  rw [mkRecord_diverge_idx, mkRecord_diverge_idx]
  exact ⟨divergeIdx_le_min A B, divergeIdx_agree A B, divergeIdx_mismatch A B,
    divergeIdx_eq_min_of_agree A B, by decide⟩

/-- Witness for C3 at the spec's example: the divergence index is within the
common length, and index `0` (below the divergence index) agrees. -/
theorem claim_C3_witness :
    (mkRecord 1 ['a'] 2 ['b'] 0
      ["ent Foo.bar".toList, "ent Foo.baz".toList, "xit Foo.baz".toList]
      ["ent Foo.bar".toList, "ent Foo.qux".toList, "xit Foo.qux".toList]).diverge_idx
      ≤ 3 ∧
    ["ent Foo.bar".toList, "ent Foo.baz".toList, "xit Foo.baz".toList].get? 0 =
      ["ent Foo.bar".toList, "ent Foo.qux".toList, "xit Foo.qux".toList].get? 0 := by
  refine ⟨?_, ?_⟩
  · exact le_trans (claim_C3_diverge_idx_least 1 2 ['a'] ['b'] 0 _ _).1 (by decide)
  · exact (claim_C3_diverge_idx_least 1 2 ['a'] ['b'] 0
      ["ent Foo.bar".toList, "ent Foo.baz".toList, "xit Foo.baz".toList]
      ["ent Foo.bar".toList, "ent Foo.qux".toList, "xit Foo.qux".toList]).2.1 0
      (by decide)

/-- C5: whenever a divergence index `i` below the common length is found, the
record's device-side context is the slice `[max(0, i-1), i+1)` of the device
sequence — equal to the immediately preceding event, when it exists, plus
the diverging event — and the emulator-side context is the same slice of the
emulator sequence; when no divergence is found within the common prefix both
context fields are `none`. -/
theorem claim_C5_context_window (rid eid : Nat) (rname ename : List Char)
    (s : ℚ) (A B : List Ev) :
    (divergeIdx A B < min A.length B.length →
      (mkRecord rid rname eid ename s A B).real_trace =
        some (pySlice A (divergeIdx A B - 1) (divergeIdx A B + 1)) ∧
      (mkRecord rid rname eid ename s A B).e_trace =
        some (pySlice B (divergeIdx A B - 1) (divergeIdx A B + 1)) ∧
      pySlice A (divergeIdx A B - 1) (divergeIdx A B + 1) =
        specContext A (divergeIdx A B) ∧
      pySlice B (divergeIdx A B - 1) (divergeIdx A B + 1) =
        specContext B (divergeIdx A B)) ∧
    (¬ divergeIdx A B < min A.length B.length →
      (mkRecord rid rname eid ename s A B).real_trace = none ∧
      (mkRecord rid rname eid ename s A B).e_trace = none) := by
  constructor
  · intro hlt
    refine ⟨?_, ?_, ?_, ?_⟩
    · rw [mkRecord_real_trace, if_pos hlt]
    · rw [mkRecord_e_trace, if_pos hlt]
    · exact pySlice_eq_specContext A _ (lt_of_lt_of_le hlt (min_le_left _ _))
    · exact pySlice_eq_specContext B _ (lt_of_lt_of_le hlt (min_le_right _ _))
  · intro hge
    rw [mkRecord_real_trace, if_neg hge, mkRecord_e_trace, if_neg hge]
    exact ⟨rfl, rfl⟩

/-- Witness for C5 at the spec's example: divergence at index 1, context =
preceding event plus diverging event on each side. -/
theorem claim_C5_witness :
    (mkRecord 1 ['a'] 2 ['b'] 0
      ["ent Foo.bar".toList, "ent Foo.baz".toList, "xit Foo.baz".toList]
      ["ent Foo.bar".toList, "ent Foo.qux".toList, "xit Foo.qux".toList]).real_trace
      = some ["ent Foo.bar".toList, "ent Foo.baz".toList] ∧
    (mkRecord 1 ['a'] 2 ['b'] 0
      ["ent Foo.bar".toList, "ent Foo.baz".toList, "xit Foo.baz".toList]
      ["ent Foo.bar".toList, "ent Foo.qux".toList, "xit Foo.qux".toList]).e_trace
      = some ["ent Foo.bar".toList, "ent Foo.qux".toList] := by
  have h := (claim_C5_context_window 1 2 ['a'] ['b'] 0
    ["ent Foo.bar".toList, "ent Foo.baz".toList, "xit Foo.baz".toList]
    ["ent Foo.bar".toList, "ent Foo.qux".toList, "xit Foo.qux".toList]).1
    (by decide)
  refine ⟨?_, ?_⟩
  · rw [h.1]; decide
  · rw [h.2.1]; decide

/-- C6: the reported `sim_max_common` equals `diverge_idx / max_common_len`
as an exact ratio whenever `max_common_len ≠ 0`, and equals `1` whenever
`max_common_len = 0`; and for two identical filtered sequences the scanner
reports no divergence (`real_trace = none`) and the fraction is `1`. -/
theorem claim_C6_fraction_matched (rid eid : Nat) (rname ename : List Char)
    (s : ℚ) (A B : List Ev) :
    ((mkRecord rid rname eid ename s A B).max_common_len ≠ 0 →
      (mkRecord rid rname eid ename s A B).sim_max_common =
        ((mkRecord rid rname eid ename s A B).diverge_idx : ℚ) /
          ((mkRecord rid rname eid ename s A B).max_common_len : ℚ)) ∧
    ((mkRecord rid rname eid ename s A B).max_common_len = 0 →
      (mkRecord rid rname eid ename s A B).sim_max_common = 1) ∧
    ((mkRecord rid rname eid ename s A A).real_trace = none ∧
      (mkRecord rid rname eid ename s A A).sim_max_common = 1) := by
  rw [mkRecord_sim_max_common, mkRecord_diverge_idx, mkRecord_max_common_len,
    mkRecord_real_trace, mkRecord_sim_max_common]
  refine ⟨fun h => by rw [if_pos h], fun h => by rw [if_neg (by omega)], ?_, ?_⟩
  · rw [if_neg (by simp [divergeIdx_self])]
  · by_cases h : min A.length A.length ≠ 0
    · rw [if_pos h, divergeIdx_self]
      simp only [min_self] at h ⊢
      exact div_self (by exact_mod_cast h)
    · rw [if_neg h]

/-- Witness for C6: on the spec's example pair the fraction reported is the
exact ratio of the divergence index to the common length. -/
theorem claim_C6_witness :
    (mkRecord 3 ['c'] 4 ['d'] 0
      ["ent Foo.bar".toList, "ent Foo.baz".toList, "xit Foo.baz".toList]
      ["ent Foo.bar".toList, "ent Foo.qux".toList, "xit Foo.qux".toList]).sim_max_common
      = ((mkRecord 3 ['c'] 4 ['d'] 0
      ["ent Foo.bar".toList, "ent Foo.baz".toList, "xit Foo.baz".toList]
      ["ent Foo.bar".toList, "ent Foo.qux".toList, "xit Foo.qux".toList]).diverge_idx : ℚ) /
        ((mkRecord 3 ['c'] 4 ['d'] 0
      ["ent Foo.bar".toList, "ent Foo.baz".toList, "xit Foo.baz".toList]
      ["ent Foo.bar".toList, "ent Foo.qux".toList, "xit Foo.qux".toList]).max_common_len : ℚ) :=
  (claim_C6_fraction_matched 3 4 ['c'] ['d'] 0
    ["ent Foo.bar".toList, "ent Foo.baz".toList, "xit Foo.baz".toList]
    ["ent Foo.bar".toList, "ent Foo.qux".toList, "xit Foo.qux".toList]).1 (by decide)

/-- C10: in every record built, the two context fields are `none` or `some`
together; they are `none` exactly when the divergence index equals the
common length, which holds exactly when the reported fraction is `1`; and a
non-`none` context has length `1` when the divergence is at index `0` and
length `2` otherwise. -/
theorem claim_C10_record_invariants (rid eid : Nat) (rname ename : List Char)
    (s : ℚ) (A B : List Ev) :
    ((mkRecord rid rname eid ename s A B).real_trace = none ↔
      (mkRecord rid rname eid ename s A B).e_trace = none) ∧
    ((mkRecord rid rname eid ename s A B).real_trace = none ↔
      (mkRecord rid rname eid ename s A B).diverge_idx =
        (mkRecord rid rname eid ename s A B).max_common_len) ∧
    ((mkRecord rid rname eid ename s A B).real_trace = none ↔
      (mkRecord rid rname eid ename s A B).sim_max_common = 1) ∧
    (∀ c, (mkRecord rid rname eid ename s A B).real_trace = some c →
      c.length = if (mkRecord rid rname eid ename s A B).diverge_idx = 0 then 1 else 2) ∧
    (∀ c, (mkRecord rid rname eid ename s A B).e_trace = some c →
      c.length = if (mkRecord rid rname eid ename s A B).diverge_idx = 0 then 1 else 2) := by
  have hle := divergeIdx_le_min A B
  rw [mkRecord_real_trace, mkRecord_e_trace, mkRecord_diverge_idx,
    mkRecord_max_common_len, mkRecord_sim_max_common]
  by_cases hlt : divergeIdx A B < min A.length B.length
  · rw [if_pos hlt, if_pos hlt]
    have hne : divergeIdx A B ≠ min A.length B.length := Nat.ne_of_lt hlt
    have hm : min A.length B.length ≠ 0 := by omega
    refine ⟨by simp, ?_, ?_, ?_, ?_⟩
    · simp [hne]
    · rw [if_pos hm]
      have hb : ((min A.length B.length : ℕ) : ℚ) ≠ 0 := by exact_mod_cast hm
      have hne1 : (divergeIdx A B : ℚ) / ((min A.length B.length : ℕ) : ℚ) ≠ 1 := by
        rw [Ne, div_eq_one_iff_eq hb]
        exact_mod_cast hne
      exact iff_of_false (by simp) hne1
    · intro c hc
      have hc' : c = pySlice A (divergeIdx A B - 1) (divergeIdx A B + 1) := by
        exact (Option.some_inj.mp hc.symm)
      rw [hc', pySlice_eq_specContext A _ (lt_of_lt_of_le hlt (min_le_left _ _))]
      exact specContext_length A _ (lt_of_lt_of_le hlt (min_le_left _ _))
    · intro c hc
      have hc' : c = pySlice B (divergeIdx A B - 1) (divergeIdx A B + 1) := by
        exact (Option.some_inj.mp hc.symm)
      rw [hc', pySlice_eq_specContext B _ (lt_of_lt_of_le hlt (min_le_right _ _))]
      exact specContext_length B _ (lt_of_lt_of_le hlt (min_le_right _ _))
  · rw [if_neg hlt, if_neg hlt]
    have heq : divergeIdx A B = min A.length B.length := by omega
    refine ⟨by simp, by simp [heq], ?_, by simp, by simp⟩
    by_cases hm : min A.length B.length ≠ 0
    · rw [if_pos hm, heq]
      simp only [true_iff]
      exact div_self (by exact_mod_cast hm)
    · rw [if_neg hm]
      simp

/-- Witness for C10: on the spec's example pair the device context is
non-`none` with divergence index `1`, so its length is `2`. -/
theorem claim_C10_witness :
    ["ent Foo.bar".toList, "ent Foo.baz".toList].length = 2 := by
  have h := (claim_C10_record_invariants 5 6 ['e'] ['f'] 0
    ["ent Foo.bar".toList, "ent Foo.baz".toList, "xit Foo.baz".toList]
    ["ent Foo.bar".toList, "ent Foo.qux".toList, "xit Foo.qux".toList]).2.2.2.1
    ["ent Foo.bar".toList, "ent Foo.baz".toList] (by decide)
  exact h.trans (if_neg (by decide))

theorem trace_aligned_eq_false_iff (A B : List Ev) :
    trace_aligned A B = false ↔ (A ≠ [] ∧ B ≠ [] ∧ A.head? ≠ B.head?) := by
  simp [trace_aligned, List.isEmpty_iff, and_assoc]

/-- C1 counterexample: a matched pair whose two filtered event sequences are
both non-empty and whose first events differ.  Contrary to the claim, the
scanner does NOT proceed to the lockstep comparison: `compare_trace` guards
the whole record construction with `if trace_aligned:` (line 143), so the
output list contains no record for the pair at all. -/
theorem claim_C1_counterexample :
    clean_trace ["ent Foo.aaa x y".toList] = some ["ent Foo.aaa x y".toList] ∧
    clean_trace ["ent Foo.bbb x y".toList] = some ["ent Foo.bbb x y".toList] ∧
    ("ent Foo.aaa x y".toList : Ev) ≠ ("ent Foo.bbb x y".toList : Ev) ∧
    compare_core
      [⟨1, "t".toList, ["ent Foo.aaa x y".toList]⟩]
      [⟨2, "t".toList, ["ent Foo.bbb x y".toList]⟩]
      [(0, 0)] = some [] := by
  refine ⟨by decide, by decide, by decide, ?_⟩
  decide

/-- C1 (amended): alignment is a PRECONDITION for scanning, not advisory
metadata: for a matched pair whose filtered sequences are both non-empty
with differing first events, the per-pair loop skips the lockstep comparison
and appends no `ComparisonRecord`; a record is appended exactly when the
pair is aligned (either filtered sequence empty, or equal first events). -/
theorem claim_C1_amended (r e : ThreadInfo) (s : ℚ) (A B : List Ev)
    (hA : clean_trace r.trace = some A) (hB : clean_trace e.trace = some B) :
    (scanPair r e s = some none ↔ (A ≠ [] ∧ B ≠ [] ∧ A.head? ≠ B.head?)) ∧
    (scanPair r e s = some (some (mkRecord r.tid r.name e.tid e.name s A B)) ↔
      trace_aligned A B = true) := by
  by_cases h : trace_aligned A B
  · constructor
    · rw [← trace_aligned_eq_false_iff]
      simp [scanPair, hA, hB, h]
    · simp [scanPair, hA, hB, h]
  · constructor
    · rw [← trace_aligned_eq_false_iff]
      simp [scanPair, hA, hB, h]
    · simp [scanPair, hA, hB, h]

/-- Witness for C1 (amended): a concrete misaligned pair is skipped. -/
theorem claim_C1_amended_witness :
    scanPair ⟨1, "t".toList, ["ent Foo.aaa x y".toList]⟩
      ⟨2, "t".toList, ["ent Foo.bbb x y".toList]⟩ 0 = some none :=
  ((claim_C1_amended ⟨1, "t".toList, ["ent Foo.aaa x y".toList]⟩
      ⟨2, "t".toList, ["ent Foo.bbb x y".toList]⟩ 0
      ["ent Foo.aaa x y".toList] ["ent Foo.bbb x y".toList]
      (by decide) (by decide)).1).mpr (by decide)

theorem sim_row_get (r : ThreadInfo) (es : List ThreadInfo) :
    ∀ (row : List ℚ) (y : Nat) (e : ThreadInfo),
      sim_row r es = some row → es.get? y = some e →
      ∃ q, trace_similarity r.name r.trace e.name e.trace = some q ∧
        row.get? y = some (-q) := by
  induction es with
  | nil => intro row y e _ he; simp at he
  | cons e0 es ih =>
    intro row y e h he
    cases hq : trace_similarity r.name r.trace e0.name e0.trace with
    | none => simp [sim_row, hq] at h
    | some q0 =>
      cases hrest : sim_row r es with
      | none => simp [sim_row, hq, hrest] at h
      | some qs =>
        simp only [sim_row, hq, hrest] at h
        obtain rfl : (-q0 :: qs : List ℚ) = row := Option.some_inj.mp h
        cases y with
        | zero =>
          obtain rfl : e0 = e := by simpa using he
          exact ⟨q0, hq, by simp⟩
        | succ y2 =>
          obtain ⟨q, hq2, hget⟩ := ih qs y2 e hrest (by simpa using he)
          exact ⟨q, hq2, by simpa using hget⟩

theorem sim_matrix_get (es : List ThreadInfo) (rs : List ThreadInfo) :
    ∀ (M : List (List ℚ)) (x y : Nat) (r e : ThreadInfo),
      sim_matrix rs es = some M → rs.get? x = some r → es.get? y = some e →
      ∃ q, trace_similarity r.name r.trace e.name e.trace = some q ∧
        matrixEntry M x y = some (-q) := by
  induction rs with
  | nil => intro M x y r e _ hr; simp at hr
  | cons r0 rs ih =>
    intro M x y r e hM hr he
    cases hrow : sim_row r0 es with
    | none => simp [sim_matrix, hrow] at hM
    | some row =>
      cases hrest : sim_matrix rs es with
      | none => simp [sim_matrix, hrow, hrest] at hM
      | some rows =>
        simp only [sim_matrix, hrow, hrest] at hM
        obtain rfl : (row :: rows : List (List ℚ)) = M := Option.some_inj.mp hM
        cases x with
        | zero =>
          obtain rfl : r0 = r := by simpa using hr
          obtain ⟨q, hq, hget⟩ := sim_row_get r0 es row y e hrow he
          exact ⟨q, hq, by simpa [matrixEntry] using hget⟩
        | succ x2 =>
          obtain ⟨q, hq, hget⟩ := ih rows x2 y r e hrest (by simpa using hr) he
          exact ⟨q, hq, by simpa [matrixEntry] using hget⟩

/-- C2 (amended): the similarity entered into the matrix is computed over
the RAW event sequences, not the noise-filtered ones: entry `(x, y)` of the
matrix is the negated `trace_similarity` of the two threads' UNfiltered
`trace` fields (`NoiseFilter`/`clean_trace` is applied only later, to the
matched pairs before scanning), and the score `s` reported in a record is
whatever value the loop passes for the pair, `sim_cov = s`. -/
theorem claim_C2_amended (rs es : List ThreadInfo) (M : List (List ℚ))
    (x y : Nat) (r e : ThreadInfo)
    (hM : sim_matrix rs es = some M) (hr : rs.get? x = some r)
    (he : es.get? y = some e) :
    (∃ q, trace_similarity r.name r.trace e.name e.trace = some q ∧
      matrixEntry M x y = some (-q)) ∧
    (∀ (s : ℚ) (A B : List Ev),
      (mkRecord r.tid r.name e.tid e.name s A B).sim_cov = s) := by
  refine ⟨sim_matrix_get es rs M x y r e hM hr he, ?_⟩
  intro s A B
  simp [mkRecord]

/-- Witness for C2 (amended) on a concrete one-thread pair: the matrix entry
is the negated raw-trace similarity. -/
theorem claim_C2_amended_witness :
    ∃ q, trace_similarity "t".toList ["ent Foo.ccc x y".toList] "t".toList
        ["ent Foo.ccc x y".toList] = some q ∧
      matrixEntry [[(-1 : ℚ)]] 0 0 = some (-q) :=
  (claim_C2_amended
    [⟨1, "t".toList, ["ent Foo.ccc x y".toList]⟩]
    [⟨2, "t".toList, ["ent Foo.ccc x y".toList]⟩]
    [[(-1 : ℚ)]] 0 0
    ⟨1, "t".toList, ["ent Foo.ccc x y".toList]⟩
    ⟨2, "t".toList, ["ent Foo.ccc x y".toList]⟩
    (by simp [sim_matrix, sim_row, trace_similarity, class_method_set,
      trace_str_to_class_method, skipNonAlpha, commonPrefixLen])
    (by decide) (by decide)).1

/-- C2 counterexample: a thread pair on which the matrix entry differs from
the similarity of the noise-filtered sequences.  The device thread's raw
trace has an extra `android.`-namespace event; the matrix entry is `-(1/2)`
(raw Jaccard `1/2`), while the similarity of the two `clean_trace`d
sequences is `1`. -/
theorem claim_C2_counterexample :
    clean_trace ["ent Foo.ddd x y".toList, "ent android.Foo.eee x y".toList] =
      some ["ent Foo.ddd x y".toList] ∧
    clean_trace ["ent Foo.ddd x y".toList] = some ["ent Foo.ddd x y".toList] ∧
    trace_similarity "t".toList ["ent Foo.ddd x y".toList] "t".toList
      ["ent Foo.ddd x y".toList] = some 1 ∧
    sim_matrix
      [⟨1, "t".toList, ["ent Foo.ddd x y".toList, "ent android.Foo.eee x y".toList]⟩]
      [⟨2, "t".toList, ["ent Foo.ddd x y".toList]⟩] = some [[-(1/2 : ℚ)]] ∧
    (-(1/2 : ℚ)) ≠ -1 := by
  refine ⟨by decide, by decide, ?_, ?_, by norm_num⟩
  · simp [trace_similarity, class_method_set, trace_str_to_class_method,
      skipNonAlpha, commonPrefixLen]
  · simp [sim_matrix, sim_row, trace_similarity, class_method_set,
      trace_str_to_class_method, skipNonAlpha, commonPrefixLen]

theorem sim_row_length (r : ThreadInfo) (es : List ThreadInfo) :
    ∀ row, sim_row r es = some row → row.length = es.length := by
  induction es with
  | nil =>
    intro row h
    simp only [sim_row] at h
    simp [← Option.some_inj.mp h]
  | cons e0 es ih =>
    intro row h
    cases hq : trace_similarity r.name r.trace e0.name e0.trace with
    | none => simp [sim_row, hq] at h
    | some q0 =>
      cases hrest : sim_row r es with
      | none => simp [sim_row, hq, hrest] at h
      | some qs =>
        simp only [sim_row, hq, hrest] at h
        obtain rfl : (-q0 :: qs : List ℚ) = row := Option.some_inj.mp h
        simp [ih qs hrest]

theorem sim_matrix_shape (es : List ThreadInfo) (rs : List ThreadInfo) :
    ∀ M, sim_matrix rs es = some M →
      M.length = rs.length ∧ ∀ row ∈ M, row.length = es.length := by
  induction rs with
  | nil =>
    intro M h
    simp only [sim_matrix] at h
    obtain rfl : ([] : List (List ℚ)) = M := Option.some_inj.mp h
    simp
  | cons r0 rs ih =>
    intro M h
    cases hrow : sim_row r0 es with
    | none => simp [sim_matrix, hrow] at h
    | some row =>
      cases hrest : sim_matrix rs es with
      | none => simp [sim_matrix, hrow, hrest] at h
      | some rows =>
        simp only [sim_matrix, hrow, hrest] at h
        obtain rfl : (row :: rows : List (List ℚ)) = M := Option.some_inj.mp h
        obtain ⟨hlen, hall⟩ := ih rows hrest
        refine ⟨by simp [hlen], ?_⟩
        intro row2 hmem
        rcases List.mem_cons.mp hmem with rfl | hmem2
        · exact sim_row_length r0 es row2 hrow
        · exact hall row2 hmem2

theorem mem_dropEmptyTraces (ts : List ThreadInfo) (t : ThreadInfo) :
    t ∈ dropEmptyTraces ts ↔ (t ∈ ts ∧ t.trace ≠ []) := by
  simp [dropEmptyTraces, List.mem_filter, List.isEmpty_iff]

/-- C4 (amended): exclusion from matching is by RAW emptiness, not filtered
emptiness: `process_trace` drops exactly the threads whose raw event
sequence is empty, and every surviving thread — including one whose sequence
becomes empty only after `NoiseFilter`/`clean_trace` — contributes a full
row (resp. column entry) to the similarity matrix. -/
theorem claim_C4_amended (ts rs es : List ThreadInfo) (M : List (List ℚ))
    (hM : sim_matrix rs es = some M) :
    (∀ t, t ∈ dropEmptyTraces ts ↔ (t ∈ ts ∧ t.trace ≠ [])) ∧
    M.length = rs.length ∧ (∀ row ∈ M, row.length = es.length) :=
  ⟨fun t => mem_dropEmptyTraces ts t, sim_matrix_shape es rs M hM⟩

/-- Witness for C4 (amended) on a concrete matrix. -/
theorem claim_C4_amended_witness :
    (⟨1, "t".toList, ["ent android.Foo.fff x y".toList]⟩ : ThreadInfo) ∈
      dropEmptyTraces [⟨1, "t".toList, ["ent android.Foo.fff x y".toList]⟩] ∧
    ([[(-1 : ℚ)]] : List (List ℚ)).length =
      [(⟨1, "t".toList, ["ent android.Foo.fff x y".toList]⟩ : ThreadInfo)].length := by
  have h := claim_C4_amended
    [⟨1, "t".toList, ["ent android.Foo.fff x y".toList]⟩]
    [⟨1, "t".toList, ["ent android.Foo.fff x y".toList]⟩]
    [⟨2, "t".toList, ["ent android.Foo.fff x y".toList]⟩]
    [[(-1 : ℚ)]]
    (by simp [sim_matrix, sim_row, trace_similarity, class_method_set,
      trace_str_to_class_method, skipNonAlpha, commonPrefixLen])
  exact ⟨(h.1 _).mpr (by simp), h.2.1⟩

/-- C4 counterexample: a thread whose event sequence becomes empty after
`clean_trace` (its only event is in the `android.` namespace) but whose raw
sequence is non-empty.  Contrary to the claim it is NOT excluded: it
survives the raw-emptiness drop, contributes a row to the similarity matrix,
and in a 1×1 instance every solver matching necessarily pairs it. -/
theorem claim_C4_counterexample :
    clean_trace ["ent android.Foo.fff x y".toList] = some [] ∧
    dropEmptyTraces [⟨1, "t".toList, ["ent android.Foo.fff x y".toList]⟩] =
      [⟨1, "t".toList, ["ent android.Foo.fff x y".toList]⟩] ∧
    (sim_matrix [⟨1, "t".toList, ["ent android.Foo.fff x y".toList]⟩]
      [⟨2, "t".toList, ["ent android.Foo.fff x y".toList]⟩]).elim 0 List.length = 1 ∧
    (∀ f : Fin 1 → Option (Fin 1), isMatching f → f 0 = some 0) := by
  refine ⟨by decide, by decide, by decide, ?_⟩
  intro f hf
  obtain ⟨-, hsize⟩ := hf
  cases h0 : f 0 with
  | some j => exact congrArg some (Subsingleton.elim j 0)
  | none =>
    exfalso
    have hempty : Finset.univ.filter (fun i : Fin 1 => (f i).isSome) = ∅ := by
      apply Finset.filter_eq_empty_iff.mpr
      intro i _
      rw [Subsingleton.elim i 0, h0]
      simp
    rw [matchSize, hempty] at hsize
    simp at hsize

theorem skipNonAlpha_replicate_append (m : Nat) (b : Ev) :
    skipNonAlpha (List.replicate m '!' ++ ' ' :: b) = skipNonAlpha b := by
  induction m with
  | zero =>
    simp only [List.replicate, List.nil_append]
    rw [skipNonAlpha, if_neg (by decide)]
  | succ k ih =>
    simp only [List.replicate_succ, List.cons_append]
    rw [skipNonAlpha, if_neg (by decide)]
    exact ih

theorem kind_length (k : Ev) (hk : k ∈ trace_kinds) : k.length = 3 := by
  simp only [trace_kinds, List.mem_cons, List.not_mem_nil, or_false] at hk
  rcases hk with rfl | rfl | rfl <;> decide

theorem trace_str_to_class_method_mkEv (k : Ev) (hk : k.length = 3) (n : Nat)
    (b : Ev) (hb : headAlpha b = true) :
    trace_str_to_class_method (mkEv k n b) = some b := by
  have hsk : skipNonAlpha b = some b := by
    cases b with
    | nil => simp [headAlpha] at hb
    | cons c rest =>
      rw [skipNonAlpha, if_pos (by simpa [headAlpha] using hb)]
  have hdrop : (mkEv k n b).drop 4 =
      (List.replicate n '!' ++ ' ' :: b).drop 1 := by
    rw [mkEv, List.append_assoc, show 4 = k.length + 1 by rw [hk],
      List.drop_append]
  rw [trace_str_to_class_method, hdrop]
  cases n with
  | zero => simpa [skipNonAlpha] using hsk
  | succ m =>
    rw [List.replicate_succ, List.cons_append, List.drop_succ_cons,
      List.drop_zero, skipNonAlpha_replicate_append]
    exact hsk

theorem class_method_set_mkEv :
    ∀ (l : List (Ev × Nat × Ev)),
      (∀ x ∈ l, x.1 ∈ trace_kinds ∧ headAlpha x.2.2 = true) →
      class_method_set (l.map (fun x => mkEv x.1 x.2.1 x.2.2)) =
        some (l.map (fun x => x.2.2)).toFinset := by
  intro l
  induction l with
  | nil => intro _; simp [class_method_set]
  | cons x xs ih =>
    intro h
    have hx := h x (List.mem_cons_self x xs)
    have hxs := fun y hy => h y (List.mem_cons_of_mem x hy)
    have hid := trace_str_to_class_method_mkEv x.1 (kind_length x.1 hx.1)
      x.2.1 x.2.2 hx.2
    simp only [List.map_cons, class_method_set, hid, ih hxs,
      List.toFinset_cons]

/-- C7 (amended): the coverage identifier of an event is the class-and-method
name TOGETHER WITH the two trailing data/location fields: the event kind
(`ent`/`xit`/`unr`) and the exclusive `!` markers are ignored, but two
events whose class-and-method names agree while their trailing fields differ
get DIFFERENT identifiers; consequently, over well-formed events the two
sets whose intersection-over-union the scorer computes are the sets of
distinct event bodies (class-and-method plus trailing fields). -/
theorem claim_C7_coverage_identifier :
    (∀ k1 k2, k1 ∈ trace_kinds → k2 ∈ trace_kinds → ∀ n1 n2 b1 b2,
      headAlpha b1 = true → headAlpha b2 = true →
      (trace_str_to_class_method (mkEv k1 n1 b1) =
        trace_str_to_class_method (mkEv k2 n2 b2) ↔ b1 = b2)) ∧
    (∀ l : List (Ev × Nat × Ev),
      (∀ x ∈ l, x.1 ∈ trace_kinds ∧ headAlpha x.2.2 = true) →
      class_method_set (l.map (fun x => mkEv x.1 x.2.1 x.2.2)) =
        some (l.map (fun x => x.2.2)).toFinset) := by
  refine ⟨?_, class_method_set_mkEv⟩
  intro k1 k2 hk1 hk2 n1 n2 b1 b2 hb1 hb2
  rw [trace_str_to_class_method_mkEv k1 (kind_length k1 hk1) n1 b1 hb1,
    trace_str_to_class_method_mkEv k2 (kind_length k2 hk2) n2 b2 hb2]
  exact Option.some_inj

/-- Witness for C7 (amended): an `ent` event with one exclusive marker and a
bare `xit` event with the same body yield the same identifier. -/
theorem claim_C7_witness :
    trace_str_to_class_method (mkEv "ent".toList 1 "Foo.ggg x y".toList) =
      trace_str_to_class_method (mkEv "xit".toList 0 "Foo.ggg x y".toList) :=
  (claim_C7_coverage_identifier.1 "ent".toList "xit".toList (by decide)
    (by decide) 1 0 "Foo.ggg x y".toList "Foo.ggg x y".toList (by decide)
    (by decide)).mpr rfl

/-- C7 counterexample: two events with the SAME fully-qualified
class-and-method name (`Foo.bar`) but different trailing data/location
fields.  The spec-prescribed identifier (class-and-method only) agrees on
them, yet the code's identifiers differ, and the coverage similarity the
scorer computes for two threads holding them is `0`, not `1`. -/
theorem claim_C7_counterexample :
    spec_class_method "ent Foo.bar a b".toList =
      spec_class_method "xit Foo.bar c d".toList ∧
    trace_str_to_class_method "ent Foo.bar a b".toList ≠
      trace_str_to_class_method "xit Foo.bar c d".toList ∧
    trace_similarity "t".toList ["ent Foo.bar a b".toList] "t".toList
      ["xit Foo.bar c d".toList] = some 0 := by
  refine ⟨by decide, by decide, ?_⟩
  simp [trace_similarity, class_method_set, trace_str_to_class_method,
    skipNonAlpha, commonPrefixLen]

/-- C8 counterexample: `trace_similarity` is NOT total.  With both thread
names empty (valid traces) the name-similarity division raises
`ZeroDivisionError` (modelled `none`) rather than returning `0`; with both
trimmed-method sets empty the coverage division raises rather than
returning `0`. -/
theorem claim_C8_counterexample :
    trace_similarity [] ["ent Foo.hhh x y".toList] []
      ["ent Foo.hhh x y".toList] = none ∧
    trace_similarity ['a'] [] ['a'] [] = none := by
  exact ⟨by decide, by decide⟩

/-- C8 (amended): the similarity computation raises (modelled `none`)
exactly when both names are empty or the union of the two trimmed-method
sets is empty — in the evaluation order of the source, with the name
division first; on every other input whose events trim successfully it
returns a value. -/
theorem claim_C8_amended (name_a name_b : List Char) (ta tb : List Ev)
    (sa sb : Finset Ev)
    (ha : class_method_set ta = some sa) (hb : class_method_set tb = some sb) :
    trace_similarity name_a ta name_b tb = none ↔
      (max name_a.length name_b.length = 0 ∨ (sa ∪ sb).card = 0) := by
  simp only [trace_similarity, ha, hb]
  by_cases h1 : max name_a.length name_b.length = 0
  · simp [h1]
  · simp only [if_neg h1]
    by_cases h2 : (sa ∪ sb).card = 0
    · simp [h1, h2]
    · simp [h1, h2]

/-- Witness for C8 (amended): two empty traces give an empty union, so the
similarity computation raises. -/
theorem claim_C8_witness :
    trace_similarity ['a'] [] ['b'] [] = none :=
  (claim_C8_amended ['a'] ['b'] [] [] ∅ ∅ rfl rfl).mpr (Or.inr (by decide))

theorem costSum_negCostMatrix {m n : Nat} (sim : Fin m → Fin n → ℚ)
    (f : Fin m → Option (Fin n)) :
    costSum (negCostMatrix sim) f = -(simSum sim f) := by
  rw [costSum, simSum, ← Finset.sum_neg_distrib]
  refine Finset.sum_congr rfl (fun i _ => ?_)
  cases h : f i <;> simp [h, negCostMatrix]

/-- C9: for every similarity matrix over `m` device threads and `n` emulator
threads, a solver output meeting `linear_sum_assignment`'s contract on the
negated-similarity cost matrix (the matrix `compare_trace` builds at line
128) is a one-to-one pairing of exactly `min m n` pairs that maximizes the
total similarity: no other matching of that size has a strictly greater sum
of similarities. -/
theorem claim_C9_matching_optimal {m n : Nat} (sim : Fin m → Fin n → ℚ)
    (f : Fin m → Option (Fin n))
    (hf : IsOptimalAssignment (negCostMatrix sim) f) :
    isMatching f ∧ ∀ g, isMatching g → simSum sim g ≤ simSum sim f := by
  obtain ⟨hmatch, hopt⟩ := hf
  refine ⟨hmatch, fun g hg => ?_⟩
  have h2 := hopt g hg
  rw [costSum_negCostMatrix, costSum_negCostMatrix] at h2
  exact neg_le_neg_iff.mp h2

/-- Witness for C9 on a 1×1 matrix with similarity 1: the assignment pairing
the single pair is optimal, and no matching beats it. -/
theorem claim_C9_witness :
    isMatching (fun _ : Fin 1 => some (0 : Fin 1)) ∧
    ∀ g, isMatching g →
      simSum (fun (_ : Fin 1) (_ : Fin 1) => (1 : ℚ)) g ≤
        simSum (fun (_ : Fin 1) (_ : Fin 1) => (1 : ℚ))
          (fun _ : Fin 1 => some (0 : Fin 1)) := by
  have hall : ∀ g : Fin 1 → Option (Fin 1), isMatching g → g 0 = some 0 := by
    intro g hg
    obtain ⟨-, hsize⟩ := hg
    cases h0 : g 0 with
    | some j => exact congrArg some (Subsingleton.elim j 0)
    | none =>
      exfalso
      have hempty : Finset.univ.filter (fun i : Fin 1 => (g i).isSome) = ∅ := by
        apply Finset.filter_eq_empty_iff.mpr
        intro i _
        rw [Subsingleton.elim i 0, h0]
        simp
      rw [matchSize, hempty] at hsize
      simp at hsize
  have hmatch : isMatching (fun _ : Fin 1 => some (0 : Fin 1)) := by
    constructor
    · intro i j _ _
      exact Subsingleton.elim i j
    · rw [matchSize]
      decide
  refine claim_C9_matching_optimal (fun _ _ => (1 : ℚ))
    (fun _ => some 0) ⟨hmatch, ?_⟩
  intro g hg
  have h0 := hall g hg
  rw [costSum, costSum, Fin.sum_univ_one, Fin.sum_univ_one, h0]

end TraceComparator
